import Mathlib

/-!
# Verification of istanbul `lib/object-utils.js`

A shallow embedding of the coverage-object utilities of istanbul
(`lib/object-utils.js`) together with proofs of the specified properties.

JavaScript objects are modelled as association lists (`List (key × value)`):
`Object.keys` enumeration becomes list traversal, property lookup becomes
`List.lookup`, and property assignment becomes an update-in-place-else-append
operation (`setKey`).  Execution counts are modelled as `Nat` (the data model
only ever holds non-negative integer counters and merge only adds), and the
JavaScript `number` results of `percent` are modelled as exact rationals `ℚ`
(`percent` divides and floors).
-/

namespace ObjectUtils

/-- Replace the value stored at key `k` by `v` (all occurrences; association
lists built from JavaScript objects have distinct keys, where this coincides
with property assignment on an existing property). -/
def setVal {α β : Type} [BEq α] (l : List (α × β)) (k : α) (v : β) : List (α × β) :=
  l.map (fun p => if p.1 == k then (k, v) else p)

/-- JavaScript property assignment `o[k] = v` on an object modelled as an
association list: update the existing binding, or append a new one. -/
def setKey {α β : Type} [BEq α] (l : List (α × β)) (k : α) (v : β) : List (α × β) :=
  match l.lookup k with
  | some _ => setVal l k v
  | none => l ++ [(k, v)]

/-- The keys of an association list. -/
def keysOf {α β : Type} (l : List (α × β)) : List α :=
  l.map Prod.fst

/-! ## The data model (spec §3) -/

/-- A source position; `statementMap` entries carry `start.line`. -/
structure Position where
  line : Nat
  deriving Repr, DecidableEq

/-- A location descriptor of a statement (only the start position is read by
this module). -/
structure Location where
  start : Position
  deriving Repr, DecidableEq

/-- A `fnMap` entry: the function name and its declaration line. -/
structure FnMeta where
  name : String
  line : Nat
  deriving Repr, DecidableEq

/-- A per-file coverage record.  `l` is the optional derived line map
(absent until derived). -/
structure FileCoverage where
  statementMap : List (String × Location)
  s : List (String × Nat)
  fnMap : List (String × FnMeta)
  f : List (String × Nat)
  b : List (String × List Nat)
  l : Option (List (Nat × Nat))
  deriving Repr, DecidableEq

/-- A coverage object: file path → per-file coverage record. -/
def Coverage : Type := List (String × FileCoverage)

/-- The `pct` field of a metrics object: either a number or the literal
string `'Unknown'` placed there by `blankSummary`. -/
inductive Pct where
  | num : ℚ → Pct
  | unknown : Pct
  deriving Repr, DecidableEq

/-- One metrics object `{total, covered, pct}`. -/
structure Totals where
  total : Nat
  covered : Nat
  pct : Pct
  deriving Repr, DecidableEq

/-- A summary: one metrics object per category. -/
structure Summary where
  lines : Totals
  statements : Totals
  functions : Totals
  branches : Totals
  deriving Repr, DecidableEq

/-! ## percent (source lines 82–90) -/

/-- `percent(covered, total)` of the source.  The JavaScript arithmetic on
`number`s is modelled exactly over `ℚ`; `Math.floor` is `⌊·⌋`.  The counters
fed to `percent` are non-negative integers (spec §3), hence `Nat` arguments,
under which the `total > 0` test of the source is the complement of
`total == 0`. -/
def percent (covered total : Nat) : ℚ :=
  if total > 0 then
    let tmp : ℚ := 1000 * 100 * (covered : ℚ) / (total : ℚ) + 5
    ((⌊tmp / 10⌋ : ℤ) : ℚ) / 100
  else
    100

/-- The percentage computation in the words of the specification: if
`total == 0` return `100.00`; otherwise `covered/total * 100`, scaled by
1000, plus 5, integer-floor-divided by 10, divided by 100.  Stated
separately from `percent` (which is translated from the source) so that the
two can be compared. -/
def percentSpec (covered total : Nat) : ℚ :=
  if total = 0 then
    100
  else
    ((⌊((covered : ℚ) / (total : ℚ) * 100 * 1000 + 5) / 10⌋ : ℤ) : ℚ) / 100

/-! ## addDerivedInfoForFile (source lines 41–57) -/

/-- `statementMap[st].start.line`.  A statement id missing from
`statementMap` would throw in JavaScript (reading `start` of `undefined`);
that is outside the documented domain (keys of `s` are exactly the keys of
`statementMap`, spec §3), and the lookup is totalised with a default
location. -/
def startLineOf (statementMap : List (String × Location)) (k : String) : Nat :=
  ((statementMap.lookup k).getD { start := { line := 0 } }).start.line

/-- One iteration of the `Object.keys(statements).forEach` body of
`addDerivedInfoForFile`: look up the start line of the statement, and store
the count on that line if the line is new or the stored count is smaller. -/
def buildLineMapStep (statementMap : List (String × Location))
    (lineMap : List (Nat × Nat)) (p : String × Nat) : List (Nat × Nat) :=
  let line := startLineOf statementMap p.1
  match lineMap.lookup line with
  | none => lineMap ++ [(line, p.2)]
  | some prevVal => if prevVal < p.2 then setVal lineMap line p.2 else lineMap

/-- The line map built by `addDerivedInfoForFile` from the statement map and
the statement counts. -/
def buildLineMap (statementMap : List (String × Location))
    (s : List (String × Nat)) : List (Nat × Nat) :=
  s.foldl (buildLineMapStep statementMap) []

/-- `addDerivedInfoForFile(fileCoverage)`: the record is updated in place in
the source; the embedding returns the post-state.  If `l` is already present
(`!fileCoverage.l` is false) nothing happens. -/
def addDerivedInfoForFile (fileCoverage : FileCoverage) : FileCoverage :=
  match fileCoverage.l with
  | some _ => fileCoverage
  | none =>
    { fileCoverage with
      l := some (buildLineMap fileCoverage.statementMap fileCoverage.s) }

/-- `addDerivedInfo(coverage)`: derive line info for every file. -/
def addDerivedInfo (coverage : Coverage) : Coverage :=
  coverage.map (fun p => (p.1, addDerivedInfoForFile p.2))

/-- `removeDerivedInfo(coverage)`: `delete coverage[k].l` for every file. -/
def removeDerivedInfo (coverage : Coverage) : Coverage :=
  coverage.map (fun p => (p.1, { p.2 with l := none }))

/-! ## Aggregation (source lines 92–118) -/

/-- `computeSimpleTotals(fileCoverage, property)`: the source selects the
category map `fileCoverage[property]` by property name; the embedding takes
the selected map directly.  `total` counts the keys, `covered` counts the
keys whose count is truthy (non-zero). -/
def computeSimpleTotals {α : Type} [BEq α] (stats : List (α × Nat)) : Totals :=
  let tc := stats.foldl
    (fun (acc : Nat × Nat) p => (acc.1 + 1, if p.2 ≠ 0 then acc.2 + 1 else acc.2))
    (0, 0)
  { total := tc.1, covered := tc.2, pct := Pct.num (percent tc.2 tc.1) }

/-- `computeBranchTotals(fileCoverage)`: every branch contributes the length
of its arm sequence to `total` and its number of arms with count `> 0` to
`covered`. -/
def computeBranchTotals (fileCoverage : FileCoverage) : Totals :=
  let tc := fileCoverage.b.foldl
    (fun (acc : Nat × Nat) p =>
      (acc.1 + p.2.length, acc.2 + (p.2.filter (fun num => num > 0)).length))
    (0, 0)
  { total := tc.1, covered := tc.2, pct := Pct.num (percent tc.2 tc.1) }

/-! ## blankSummary and summarizeFileCoverage (source lines 142–183) -/

/-- `blankSummary()`: all categories at `{total: 0, covered: 0, pct: 'Unknown'}`. -/
def blankSummary : Summary :=
  { lines := { total := 0, covered := 0, pct := Pct.unknown },
    statements := { total := 0, covered := 0, pct := Pct.unknown },
    functions := { total := 0, covered := 0, pct := Pct.unknown },
    branches := { total := 0, covered := 0, pct := Pct.unknown } }

/-- `summarizeFileCoverage(fileCoverage)` first mutates its argument through
`addDerivedInfoForFile`; the embedding returns the post-state of the
argument together with the summary.  After derivation `l` is always present;
`getD []` totalises the (unreachable) absent case. -/
def summarizeFileCoverageState (fileCoverage : FileCoverage) :
    FileCoverage × Summary :=
  let fc := addDerivedInfoForFile fileCoverage
  (fc,
   { blankSummary with
     lines := computeSimpleTotals (fc.l.getD []),
     functions := computeSimpleTotals fc.f,
     statements := computeSimpleTotals fc.s,
     branches := computeBranchTotals fc })

/-- The summary returned by `summarizeFileCoverage`. -/
def summarizeFileCoverage (fileCoverage : FileCoverage) : Summary :=
  (summarizeFileCoverageState fileCoverage).2

/-! ## mergeFileCoverage (source lines 195–216) -/

/-- `ret.s[k] += second.s[k]` over an association list.  On a key absent
from the accumulator the source stores `NaN` (`undefined + v`); that only
happens outside the same-file precondition (spec §4.5 leaves key-set
mismatch undefined), and the embedding keeps `Nat` counters by storing `v`
there. -/
def bumpKey (l : List (String × Nat)) (k : String) (v : Nat) :
    List (String × Nat) :=
  match l.lookup k with
  | some w => setVal l k (w + v)
  | none => l ++ [(k, v)]

/-- The branch-arm loop `for (i = 0; i < retArray.length; i += 1)
retArray[i] += secondArray[i]`: the result keeps the first array's length.
An index beyond the second array would produce `NaN` in the source (again
outside the same-file precondition); the embedding leaves those entries
unchanged. -/
def addArrays : List Nat → List Nat → List Nat
  | [], _ => []
  | a :: as, [] => a :: addArrays as []
  | a :: as, b :: bs => (a + b) :: addArrays as bs

/-- The `Object.keys(second.b).forEach` body.  A key absent from `ret.b`
would throw in JavaScript (reading `length` of `undefined`, outside the
same-file precondition); the embedding leaves the accumulator unchanged
there. -/
def bumpArr (l : List (String × List Nat)) (k : String) (arr : List Nat) :
    List (String × List Nat) :=
  match l.lookup k with
  | some retArr => setVal l k (addArrays retArr arr)
  | none => l

/-- `mergeFileCoverage(first, second)` with the mutation effects explicit:
`ret` starts as a JSON deep copy of `first` (a value copy, so no aliasing
with either argument), `ret.l` is deleted, and every subsequent write
targets `ret`; the post-states of the two arguments are returned together
with the result. -/
def mergeFileCoverageState (first second : FileCoverage) :
    FileCoverage × FileCoverage × FileCoverage :=
  let ret := { first with l := none }
  let ret := { ret with
               s := second.s.foldl (fun acc (p : String × Nat) => bumpKey acc p.1 p.2) ret.s }
  let ret := { ret with
               f := second.f.foldl (fun acc (p : String × Nat) => bumpKey acc p.1 p.2) ret.f }
  let ret := { ret with
               b := second.b.foldl (fun acc (p : String × List Nat) => bumpArr acc p.1 p.2) ret.b }
  (first, second, ret)

/-- The record returned by `mergeFileCoverage`. -/
def mergeFileCoverage (first second : FileCoverage) : FileCoverage :=
  (mergeFileCoverageState first second).2.2

/-! ## mergeSummaryObjects (source lines 227–247) -/

/-- The `increment` closure: skip falsy (absent/undefined) arguments, else
add `total` and `covered` of every category. -/
def incrementSummary (ret : Summary) (obj : Option Summary) : Summary :=
  match obj with
  | none => ret
  | some o =>
    { ret with
      lines := { ret.lines with
                 total := ret.lines.total + o.lines.total,
                 covered := ret.lines.covered + o.lines.covered },
      statements := { ret.statements with
                      total := ret.statements.total + o.statements.total,
                      covered := ret.statements.covered + o.statements.covered },
      branches := { ret.branches with
                    total := ret.branches.total + o.branches.total,
                    covered := ret.branches.covered + o.branches.covered },
      functions := { ret.functions with
                     total := ret.functions.total + o.functions.total,
                     covered := ret.functions.covered + o.functions.covered } }

/-- `mergeSummaryObjects(summary...)`: fold `increment` over the variadic
argument list starting from a blank summary, then recompute `pct` of every
category from the accumulated counters. -/
def mergeSummaryObjects (args : List (Option Summary)) : Summary :=
  let ret := args.foldl incrementSummary blankSummary
  { ret with
    lines := { ret.lines with
               pct := Pct.num (percent ret.lines.covered ret.lines.total) },
    statements := { ret.statements with
                    pct := Pct.num (percent ret.statements.covered ret.statements.total) },
    branches := { ret.branches with
                  pct := Pct.num (percent ret.branches.covered ret.branches.total) },
    functions := { ret.functions with
                   pct := Pct.num (percent ret.functions.covered ret.functions.total) } }

/-! ## toYUICoverage (source lines 259–296) -/

/-- A per-file object of the `yuitest_coverage` format. -/
structure YUIFileCoverage where
  lines : List (Nat × Nat)
  calledLines : Nat
  coveredLines : Nat
  functions : List (String × Nat)
  calledFunctions : Nat
  coveredFunctions : Nat
  deriving Repr, DecidableEq

/-- The key `fnMap[k].name + ':' + fnMap[k].line` of the YUI `functions`
object.  A function id missing from `fnMap` would throw in JavaScript
(outside the documented domain: keys of `f` are exactly the keys of
`fnMap`); the lookup is totalised with a default entry. -/
def yuiFnKey (fnMap : List (String × FnMeta)) (k : String) : String :=
  let m := (fnMap.lookup k).getD { name := "", line := 0 }
  m.name ++ ":" ++ toString m.line

/-- The `Object.keys(lines).forEach` body of `toYUICoverage`: copy the
entry into `o.lines`, count it in `coveredLines` unconditionally, and in
`calledLines` only when the count is `> 0`. -/
def yuiLineStep (o : YUIFileCoverage) (p : Nat × Nat) : YUIFileCoverage :=
  { o with
    lines := setKey o.lines p.1 p.2,
    coveredLines := o.coveredLines + 1,
    calledLines := if p.2 > 0 then o.calledLines + 1 else o.calledLines }

/-- The `Object.keys(functions).forEach` body of `toYUICoverage`: store the
count under `yuiFnKey`, count the entry in `coveredFunctions`
unconditionally, and in `calledFunctions` only when the count is `> 0`. -/
def yuiFnStep (fnMap : List (String × FnMeta)) (o : YUIFileCoverage)
    (p : String × Nat) : YUIFileCoverage :=
  { o with
    functions := setKey o.functions (yuiFnKey fnMap p.1) p.2,
    coveredFunctions := o.coveredFunctions + 1,
    calledFunctions := if p.2 > 0 then o.calledFunctions + 1 else o.calledFunctions }

/-- The per-file body of `toYUICoverage`: fold the two `forEach` loops over
the derived line map and the function counts.  `toYUICoverage` derives `l`
before calling this, so `l` is present; `getD []` totalises the absent
case. -/
def convertFile (fileCoverage : FileCoverage) : YUIFileCoverage :=
  let lines := fileCoverage.l.getD []
  let o : YUIFileCoverage :=
    { lines := [], calledLines := 0, coveredLines := 0,
      functions := [], calledFunctions := 0, coveredFunctions := 0 }
  let o := lines.foldl yuiLineStep o
  let o := fileCoverage.f.foldl (yuiFnStep fileCoverage.fnMap) o
  o

/-- `toYUICoverage(coverage)` first runs `addDerivedInfo` on its argument (a
mutation); the post-state of the argument is returned alongside the
result. -/
def toYUICoverage (coverage : Coverage) :
    Coverage × List (String × YUIFileCoverage) :=
  let coverage := addDerivedInfo coverage
  (coverage, coverage.map (fun p => (p.1, convertFile p.2)))

/-! ## Association-list lemmas -/

theorem lookup_nil {α β : Type} [BEq α] (k : α) :
    (([] : List (α × β)).lookup k) = none := rfl

theorem lookup_cons {α β : Type} [BEq α] (p : α × β)
    (l : List (α × β)) (k : α) :
    ((p :: l).lookup k) = if k == p.1 then some p.2 else l.lookup k := by
  rcases p with ⟨a, b⟩
  simp only [List.lookup]
  cases h : k == a <;> simp [h]

theorem lookup_append_some {α β : Type} [BEq α] [LawfulBEq α]
    {l : List (α × β)} {k : α} {v : β} (l' : List (α × β))
    (h : l.lookup k = some v) : ((l ++ l').lookup k) = some v := by
  induction l with
  | nil => simp [lookup_nil] at h
  | cons p t ih =>
    rw [lookup_cons] at h
    rw [List.cons_append, lookup_cons]
    by_cases hk : k = p.1
    · simpa [hk] using h
    · simp only [beq_iff_eq, hk, if_false] at h ⊢
      exact ih h

theorem lookup_append_none {α β : Type} [BEq α] [LawfulBEq α]
    {l : List (α × β)} {k : α} (l' : List (α × β))
    (h : l.lookup k = none) : ((l ++ l').lookup k) = l'.lookup k := by
  induction l with
  | nil => simp
  | cons p t ih =>
    rw [lookup_cons] at h
    rw [List.cons_append, lookup_cons]
    by_cases hk : k = p.1
    · simp [hk] at h
    · simp only [beq_iff_eq, hk, if_false] at h ⊢
      exact ih h

theorem lookup_setVal_self {α β : Type} [BEq α] [LawfulBEq α]
    (l : List (α × β)) (k : α) (v : β) :
    ((setVal l k v).lookup k) = (l.lookup k).map (fun _ => v) := by
  induction l with
  | nil => simp [setVal, lookup_nil]
  | cons p t ih =>
    rcases p with ⟨a, b⟩
    simp only [setVal, List.map_cons] at ih ⊢
    by_cases h : a = k
    · simp [lookup_cons, h]
    · have hk : ¬ k = a := fun he => h he.symm
      simp only [beq_iff_eq, h, if_false, lookup_cons, hk]
      exact ih

theorem lookup_setVal_ne {α β : Type} [BEq α] [LawfulBEq α]
    (l : List (α × β)) (k : α) (v : β) {k' : α} (h : k' ≠ k) :
    ((setVal l k v).lookup k') = l.lookup k' := by
  induction l with
  | nil => simp [setVal]
  | cons p t ih =>
    rcases p with ⟨a, b⟩
    simp only [setVal, List.map_cons] at ih ⊢
    by_cases ha : a = k
    · simp only [beq_iff_eq, ha, if_true, lookup_cons]
      have h1 : ¬ k' = k := h
      have h2 : ¬ k' = a := by rw [ha]; exact h
      simp only [beq_iff_eq, h1, h2, if_false]
      exact ih
    · simp only [beq_iff_eq, ha, if_false, lookup_cons]
      by_cases hk : k' = a
      · simp [hk]
      · simp only [beq_iff_eq, hk, if_false]
        exact ih

theorem lookup_eq_none_iff {α β : Type} [BEq α] [LawfulBEq α]
    (l : List (α × β)) (k : α) :
    l.lookup k = none ↔ k ∉ keysOf l := by
  induction l with
  | nil => simp [keysOf]
  | cons p t ih =>
    rw [lookup_cons]
    by_cases h : k = p.1
    · simp [keysOf, h]
    · simp [keysOf, h, ih]

theorem mem_of_lookup_eq_some {α β : Type} [BEq α] [LawfulBEq α]
    {l : List (α × β)} {k : α} {v : β} (h : l.lookup k = some v) :
    (k, v) ∈ l := by
  induction l with
  | nil => simp [lookup_nil] at h
  | cons p t ih =>
    rw [lookup_cons] at h
    by_cases hk : k = p.1
    · simp only [beq_iff_eq, hk, if_true] at h
      obtain rfl : p.2 = v := by simpa using h
      rw [hk]
      exact List.mem_cons_self _ _
    · simp only [beq_iff_eq, hk, if_false] at h
      exact List.mem_cons_of_mem _ (ih h)

theorem lookup_eq_some_of_mem_nodup {α β : Type} [BEq α] [LawfulBEq α]
    {l : List (α × β)} {k : α} {v : β}
    (hnd : (keysOf l).Nodup) (hm : (k, v) ∈ l) :
    l.lookup k = some v := by
  induction l with
  | nil => simp at hm
  | cons p t ih =>
    simp only [keysOf, List.map_cons, List.nodup_cons] at hnd
    rw [lookup_cons]
    rcases List.mem_cons.mp hm with he | ht
    · rw [← he]
      simp
    · by_cases hk : k = p.1
      · exfalso
        apply hnd.1
        rw [hk] at ht
        exact List.mem_map.mpr ⟨(p.1, v), ht, rfl⟩
      · simp only [beq_iff_eq, hk, if_false]
        exact ih hnd.2 ht

theorem mem_keysOf_of_lookup {α β : Type} [BEq α] [LawfulBEq α]
    {l : List (α × β)} {k : α} {v : β} (h : l.lookup k = some v) :
    k ∈ keysOf l :=
  List.mem_map.mpr ⟨(k, v), mem_of_lookup_eq_some h, rfl⟩

theorem lookup_isSome_iff_mem {α β : Type} [BEq α] [LawfulBEq α]
    (l : List (α × β)) (k : α) :
    (l.lookup k).isSome ↔ k ∈ keysOf l := by
  constructor
  · intro h
    obtain ⟨v, hv⟩ := Option.isSome_iff_exists.mp h
    exact mem_keysOf_of_lookup hv
  · intro h
    rcases ho : l.lookup k with _ | v
    · exact absurd ((lookup_eq_none_iff l k).mp ho) (by simpa using h)
    · simp

theorem lookup_map_snd {α β γ : Type} [BEq α] (l : List (α × β))
    (g : β → γ) (k : α) :
    ((l.map (fun p => (p.1, g p.2))).lookup k) = (l.lookup k).map g := by
  induction l with
  | nil => rfl
  | cons p t ih =>
    rcases p with ⟨a, b⟩
    simp only [List.map_cons, List.lookup]
    cases k == a <;> simp [ih]

/-! ## Maxima over lists of counts -/

/-- The maximum of two optional counts (`none` being an identity). -/
def optMax : Option Nat → Option Nat → Option Nat
  | none, b => b
  | some a, none => some a
  | some a, some b => some (max a b)

/-- The maximum of a list of counts, `none` on the empty list. -/
def listMax : List Nat → Option Nat
  | [] => none
  | x :: xs => some (xs.foldl max x)

theorem optMax_none_right (a : Option Nat) : optMax a none = a := by
  cases a <;> rfl

theorem optMax_assoc (a b c : Option Nat) :
    optMax (optMax a b) c = optMax a (optMax b c) := by
  cases a <;> cases b <;> cases c <;> simp [optMax, Nat.max_assoc]

theorem foldl_max_shift (xs : List Nat) :
    ∀ a b : Nat, xs.foldl max (max a b) = max a (xs.foldl max b) := by
  induction xs with
  | nil => intro a b; rfl
  | cons x t ih =>
    intro a b
    simp only [List.foldl_cons]
    rw [Nat.max_assoc, ih]

theorem listMax_cons (x : Nat) (xs : List Nat) :
    listMax (x :: xs) = optMax (some x) (listMax xs) := by
  cases xs with
  | nil => rfl
  | cons y ys =>
    simp only [listMax, optMax, List.foldl_cons]
    rw [foldl_max_shift]

theorem mem_of_listMax {xs : List Nat} {m : Nat} (h : listMax xs = some m) :
    m ∈ xs := by
  induction xs generalizing m with
  | nil => simp [listMax] at h
  | cons x t ih =>
    rw [listMax_cons] at h
    rcases ht : listMax t with _ | m'
    · rw [ht] at h
      simp only [optMax_none_right, Option.some.injEq] at h
      rw [← h]
      exact List.mem_cons_self _ _
    · rw [ht] at h
      simp only [optMax, Option.some.injEq] at h
      rcases Nat.le_total x m' with hle | hle
      · rw [← h, Nat.max_eq_right hle]
        exact List.mem_cons_of_mem _ (ih ht)
      · rw [← h, Nat.max_eq_left hle]
        exact List.mem_cons_self _ _

theorem le_listMax {xs : List Nat} {a m : Nat} (ha : a ∈ xs)
    (h : listMax xs = some m) : a ≤ m := by
  induction xs generalizing m with
  | nil => simp at ha
  | cons x t ih =>
    rw [listMax_cons] at h
    rcases List.mem_cons.mp ha with he | ht
    · rcases hmt : listMax t with _ | m'
      · rw [hmt] at h
        simp only [optMax_none_right, Option.some.injEq] at h
        rw [he, h]
      · rw [hmt] at h
        simp only [optMax, Option.some.injEq] at h
        rw [he, ← h]
        exact Nat.le_max_left _ _
    · rcases hmt : listMax t with _ | m'
      · exact absurd hmt (by cases t with
          | nil => simp at ht
          | cons y ys => simp [listMax])
      · rw [hmt] at h
        simp only [optMax, Option.some.injEq] at h
        calc a ≤ m' := ih ht hmt
          _ ≤ m := by rw [← h]; exact Nat.le_max_right _ _

theorem listMax_eq_none_iff (xs : List Nat) : listMax xs = none ↔ xs = [] := by
  cases xs <;> simp [listMax]

/-! ## Characterisation of the derived line map -/

/-- The statement counts recorded for statements starting on `line` (in the
iteration order of `s`). -/
def countsOn (statementMap : List (String × Location))
    (s : List (String × Nat)) (line : Nat) : List Nat :=
  (s.filter (fun p => startLineOf statementMap p.1 == line)).map Prod.snd

theorem buildLineMapStep_lookup (sm : List (String × Location))
    (acc : List (Nat × Nat)) (p : String × Nat) (line : Nat) :
    ((buildLineMapStep sm acc p).lookup line) =
      if startLineOf sm p.1 = line then optMax (acc.lookup line) (some p.2)
      else acc.lookup line := by
  unfold buildLineMapStep
  by_cases h : startLineOf sm p.1 = line
  · rw [if_pos h, h]
    rcases ha : acc.lookup line with _ | prev
    · simp only [ha]
      rw [lookup_append_none _ ha, lookup_cons]
      simp [optMax]
    · simp only [ha]
      by_cases hlt : prev < p.2
      · rw [if_pos hlt, lookup_setVal_self, ha]
        simp [optMax, Nat.max_eq_right (Nat.le_of_lt hlt)]
      · rw [if_neg hlt, ha]
        simp [optMax, Nat.max_eq_left (Nat.le_of_not_lt hlt)]
  · rw [if_neg h]
    rcases ha : acc.lookup (startLineOf sm p.1) with _ | prev <;> simp only [ha]
    · rcases hb : acc.lookup line with _ | v
      · rw [lookup_append_none _ hb, lookup_cons]
        have hne : ¬ line = startLineOf sm p.1 := fun he => h he.symm
        simp [hne, hb]
      · exact lookup_append_some _ hb
    · by_cases hlt : prev < p.2
      · rw [if_pos hlt]
        exact lookup_setVal_ne _ _ _ (fun he => h he.symm)
      · rw [if_neg hlt]

theorem foldl_buildLineMapStep (sm : List (String × Location))
    (s : List (String × Nat)) (acc : List (Nat × Nat)) (line : Nat) :
    ((s.foldl (buildLineMapStep sm) acc).lookup line) =
      optMax (acc.lookup line) (listMax (countsOn sm s line)) := by
  induction s generalizing acc with
  | nil => simp [countsOn, listMax, optMax_none_right]
  | cons p rest ih =>
    rw [List.foldl_cons, ih, buildLineMapStep_lookup]
    by_cases h : startLineOf sm p.1 = line
    · rw [if_pos h]
      have hc : countsOn sm (p :: rest) line = p.2 :: countsOn sm rest line := by
        simp [countsOn, List.filter_cons, h]
      rw [hc, listMax_cons, optMax_assoc]
    · rw [if_neg h]
      have hc : countsOn sm (p :: rest) line = countsOn sm rest line := by
        simp [countsOn, List.filter_cons, h]
      rw [hc]

theorem buildLineMap_lookup (sm : List (String × Location))
    (s : List (String × Nat)) (line : Nat) :
    ((buildLineMap sm s).lookup line) = listMax (countsOn sm s line) := by
  unfold buildLineMap
  rw [foldl_buildLineMapStep]
  rfl

/-! ## Characterisation of the counter merge -/

/-- The sum of the values recorded under key `k` (a JavaScript object has
each key once, where this is the value at `k`, or `0` when absent). -/
def keySum (l : List (String × Nat)) (k : String) : Nat :=
  ((l.filter (fun p => p.1 == k)).map Prod.snd).sum

theorem keySum_nil (k : String) : keySum [] k = 0 := rfl

theorem keySum_cons (p : String × Nat) (l : List (String × Nat)) (k : String) :
    keySum (p :: l) k = if p.1 = k then p.2 + keySum l k else keySum l k := by
  by_cases h : p.1 = k
  · simp [keySum, List.filter_cons, h]
  · simp [keySum, List.filter_cons, h]

theorem keySum_eq_zero_of_not_mem {l : List (String × Nat)} {k : String}
    (h : k ∉ keysOf l) : keySum l k = 0 := by
  induction l with
  | nil => rfl
  | cons p t ih =>
    simp only [keysOf, List.map_cons, List.mem_cons] at h
    push_neg at h
    rw [keySum_cons, if_neg (fun he => h.1 he.symm)]
    exact ih (by simpa [keysOf] using h.2)

theorem keySum_of_lookup_nodup {l : List (String × Nat)} {k : String} {v : Nat}
    (hnd : (keysOf l).Nodup) (h : l.lookup k = some v) : keySum l k = v := by
  induction l with
  | nil => simp [lookup_nil] at h
  | cons p t ih =>
    simp only [keysOf, List.map_cons, List.nodup_cons] at hnd
    rw [lookup_cons] at h
    rw [keySum_cons]
    by_cases hk : k = p.1
    · simp only [beq_iff_eq, hk, if_true, Option.some.injEq] at h
      rw [if_pos hk.symm]
      have hz : keySum t k = 0 := by
        apply keySum_eq_zero_of_not_mem
        rw [hk]
        exact fun hc => hnd.1 (by simpa [keysOf] using hc)
      rw [hz, Nat.add_zero]
      exact h
    · simp only [beq_iff_eq, hk, if_false] at h
      rw [if_neg (fun he => hk he.symm)]
      exact ih hnd.2 h

theorem bumpKey_lookup_self (l : List (String × Nat)) (k : String) (v : Nat) :
    ((bumpKey l k v).lookup k) = some ((l.lookup k).getD 0 + v) := by
  unfold bumpKey
  rcases h : l.lookup k with _ | w <;> simp only [h]
  · rw [lookup_append_none _ h, lookup_cons]
    simp
  · rw [lookup_setVal_self, h]
    rfl

theorem bumpKey_lookup_ne (l : List (String × Nat)) (k : String) (v : Nat)
    {k' : String} (h : k' ≠ k) : ((bumpKey l k v).lookup k') = l.lookup k' := by
  unfold bumpKey
  rcases hk : l.lookup k with _ | w <;> simp only [hk]
  · rcases hb : l.lookup k' with _ | v'
    · rw [lookup_append_none _ hb, lookup_cons]
      simp [h]
    · exact lookup_append_some _ hb
  · exact lookup_setVal_ne _ _ _ h

theorem foldl_bumpKey_lookup (l : List (String × Nat))
    (base : List (String × Nat)) (k : String) :
    ((l.foldl (fun acc (p : String × Nat) => bumpKey acc p.1 p.2) base).lookup k) =
      if (base.lookup k).isSome ∨ k ∈ keysOf l
      then some ((base.lookup k).getD 0 + keySum l k)
      else none := by
  induction l generalizing base with
  | nil =>
    rw [List.foldl_nil]
    rcases h : base.lookup k with _ | w
    · simp [keysOf]
    · simp [keySum_nil]
  | cons p t ih =>
    rw [List.foldl_cons, ih]
    by_cases hk : k = p.1
    · have hself : ((bumpKey base p.1 p.2).lookup k) =
          some ((base.lookup k).getD 0 + p.2) := by
        rw [hk]
        exact bumpKey_lookup_self base p.1 p.2
      rw [hself]
      simp only [Option.isSome_some, true_or, if_true, Option.getD_some]
      have hmem : k ∈ keysOf (p :: t) := by
        rw [hk]
        simp [keysOf]
      rw [if_pos (Or.inr hmem), keySum_cons, if_pos hk.symm, Nat.add_assoc]
    · have hne : ((bumpKey base p.1 p.2).lookup k) = base.lookup k :=
        bumpKey_lookup_ne base p.1 p.2 hk
      rw [hne]
      have hks : keySum (p :: t) k = keySum t k := by
        rw [keySum_cons, if_neg (fun he => hk he.symm)]
      rw [hks]
      have hmk : ((base.lookup k).isSome ∨ k ∈ keysOf (p :: t)) ↔
          ((base.lookup k).isSome ∨ k ∈ keysOf t) := by
        simp [keysOf, hk]
      exact if_congr hmk.symm rfl rfl

theorem addArrays_eq_zipWith {as bs : List Nat} (h : as.length = bs.length) :
    addArrays as bs = List.zipWith (fun x y => x + y) as bs := by
  induction as generalizing bs with
  | nil => rfl
  | cons a at' ih =>
    cases bs with
    | nil => simp at h
    | cons b bt =>
      simp only [addArrays, List.zipWith_cons_cons]
      rw [ih (by simpa using h)]

theorem addArrays_comm {as bs : List Nat} (h : as.length = bs.length) :
    addArrays as bs = addArrays bs as := by
  induction as generalizing bs with
  | nil =>
    cases bs with
    | nil => rfl
    | cons b bt => simp at h
  | cons a at' ih =>
    cases bs with
    | nil => simp at h
    | cons b bt =>
      simp only [addArrays]
      rw [ih (by simpa using h), Nat.add_comm]

theorem bumpArr_lookup_self (l : List (String × List Nat)) (k : String)
    (arr : List Nat) :
    ((bumpArr l k arr).lookup k) =
      (l.lookup k).map (fun retArr => addArrays retArr arr) := by
  unfold bumpArr
  rcases h : l.lookup k with _ | retArr <;> simp only [h]
  · rfl
  · rw [lookup_setVal_self, h]
    rfl

theorem bumpArr_lookup_ne (l : List (String × List Nat)) (k : String)
    (arr : List Nat) {k' : String} (h : k' ≠ k) :
    ((bumpArr l k arr).lookup k') = l.lookup k' := by
  unfold bumpArr
  rcases hk : l.lookup k with _ | retArr <;> simp only [hk]
  exact lookup_setVal_ne _ _ _ h

theorem foldl_bumpArr_not_mem {l : List (String × List Nat)} {k : String}
    (base : List (String × List Nat)) (h : k ∉ keysOf l) :
    ((l.foldl (fun acc (p : String × List Nat) => bumpArr acc p.1 p.2) base).lookup k) =
      base.lookup k := by
  induction l generalizing base with
  | nil => rfl
  | cons p t ih =>
    simp only [keysOf, List.map_cons, List.mem_cons] at h
    push_neg at h
    rw [List.foldl_cons, ih _ (by simpa [keysOf] using h.2)]
    exact bumpArr_lookup_ne _ _ _ h.1

theorem foldl_bumpArr_lookup {l : List (String × List Nat)} {k : String}
    {arr : List Nat} (base : List (String × List Nat))
    (hnd : (keysOf l).Nodup) (h : l.lookup k = some arr) :
    ((l.foldl (fun acc (p : String × List Nat) => bumpArr acc p.1 p.2) base).lookup k) =
      (base.lookup k).map (fun retArr => addArrays retArr arr) := by
  induction l generalizing base with
  | nil => simp [lookup_nil] at h
  | cons p t ih =>
    simp only [keysOf, List.map_cons, List.nodup_cons] at hnd
    rw [lookup_cons] at h
    rw [List.foldl_cons]
    by_cases hk : k = p.1
    · simp only [beq_iff_eq, hk, if_true, Option.some.injEq] at h
      have hnm : k ∉ keysOf t := by
        rw [hk]
        exact fun hc => hnd.1 (by simpa [keysOf] using hc)
      rw [foldl_bumpArr_not_mem _ hnm]
      rw [hk, ← h]
      exact bumpArr_lookup_self base p.1 p.2
    · simp only [beq_iff_eq, hk, if_false] at h
      rw [ih (bumpArr base p.1 p.2) hnd.2 h, bumpArr_lookup_ne _ _ _ hk]

/-! ## The claims -/

/-- C1: for every pair of counters, `percent` returns exactly `100.00` when
`total == 0` and otherwise `covered/total * 100` rounded with the half-up
bias (scale by 1000, add 5, integer-floor-divide by 10, divide by 100), the
computation described by `percentSpec`; in particular
`percent(0,0) == 100.00`, `percent(1,3) == 33.33`, `percent(2,3) == 66.67`
and `percent(0,5) == 0.00`. -/
theorem percent_refines_percentSpec :
    (∀ covered total : Nat, percent covered total = percentSpec covered total) ∧
    percent 0 0 = 100 ∧ percent 1 3 = 33.33 ∧ percent 2 3 = 66.67 ∧
    percent 0 5 = 0 := by
  refine ⟨?_, ?_, ?_, ?_, ?_⟩
  · intro c t
    rcases Nat.eq_zero_or_pos t with h | h
    · subst h
      simp [percent, percentSpec]
    · have h0 : ¬ t = 0 := Nat.pos_iff_ne_zero.mp h
      simp only [percent, percentSpec, h, if_true, h0, if_false]
      have harg : 1000 * 100 * (c : ℚ) / (t : ℚ) + 5 =
          (c : ℚ) / (t : ℚ) * 100 * 1000 + 5 := by ring
      rw [harg]
  · norm_num [percent]
  · norm_num [percent]
  · norm_num [percent]
  · norm_num [percent]

/-- C2 (counterexample): `mergeSummaryObjects()` with zero arguments does
not return `pct: 'Unknown'` in any category — the final recomputation pass
overwrites the blank `'Unknown'` with `percent(0,0)`. -/
theorem mergeSummaryObjects_empty_cex :
    (mergeSummaryObjects []).lines.pct ≠ Pct.unknown ∧
    (mergeSummaryObjects []).statements.pct ≠ Pct.unknown ∧
    (mergeSummaryObjects []).functions.pct ≠ Pct.unknown ∧
    (mergeSummaryObjects []).branches.pct ≠ Pct.unknown := by
  decide

/-- C2 (amended): `mergeSummaryObjects()` with zero arguments returns a
summary with `total = 0` and `covered = 0` in every category and with
`pct = percent(0,0) = 100.00` (not `'Unknown'`) in every category, because
the percentages are unconditionally recomputed after the (empty) fold. -/
theorem mergeSummaryObjects_empty_eval :
    mergeSummaryObjects [] =
      { lines := { total := 0, covered := 0, pct := Pct.num 100 },
        statements := { total := 0, covered := 0, pct := Pct.num 100 },
        functions := { total := 0, covered := 0, pct := Pct.num 100 },
        branches := { total := 0, covered := 0, pct := Pct.num 100 } } := by
  decide

/-- C5: `addDerivedInfoForFile` is guarded and idempotent: a record that
already has an `l` field is returned entirely unchanged, and running the
projector twice equals running it once. -/
theorem addDerivedInfoForFile_idempotent :
    ∀ fc : FileCoverage,
      (∀ m, fc.l = some m → addDerivedInfoForFile fc = fc) ∧
      addDerivedInfoForFile (addDerivedInfoForFile fc) =
        addDerivedInfoForFile fc := by
  intro fc
  constructor
  · intro m hm
    simp [addDerivedInfoForFile, hm]
  · rcases h : fc.l with _ | m
    · simp [addDerivedInfoForFile, h]
    · simp [addDerivedInfoForFile, h]

/-- C5 witness: the guard and the idempotence at a concrete record with a
derived line map already present. -/
theorem addDerivedInfoForFile_idempotent_witness :
    ({ statementMap := [("1", { start := { line := 1 } })], s := [("1", 2)],
       fnMap := [], f := [], b := [],
       l := some [(1, 2)] } : FileCoverage).l = some [(1, 2)] ∧
    addDerivedInfoForFile
      { statementMap := [("1", { start := { line := 1 } })], s := [("1", 2)],
        fnMap := [], f := [], b := [], l := some [(1, 2)] } =
      { statementMap := [("1", { start := { line := 1 } })], s := [("1", 2)],
        fnMap := [], f := [], b := [], l := some [(1, 2)] } :=
  ⟨rfl,
   (addDerivedInfoForFile_idempotent
      { statementMap := [("1", { start := { line := 1 } })], s := [("1", 2)],
        fnMap := [], f := [], b := [], l := some [(1, 2)] }).1 _ rfl⟩

theorem foldl_branch_counts (l : List (String × List Nat)) (a c : Nat) :
    (l.foldl (fun (acc : Nat × Nat) p =>
      (acc.1 + p.2.length, acc.2 + (p.2.filter (fun num => num > 0)).length))
      (a, c)) =
    (a + (l.map (fun p => p.2.length)).sum,
     c + (l.map (fun p => (p.2.filter (fun num => num > 0)).length)).sum) := by
  induction l generalizing a c with
  | nil => simp
  | cons p t ih =>
    simp only [List.foldl_cons, List.map_cons, List.sum_cons]
    rw [ih]
    simp [Nat.add_assoc]

/-- C6: branch aggregation computes `total` as the sum of the branch-arm
sequence lengths over all branch ids, `covered` as the number of arms with
count `> 0` across all sequences, and `pct` as `percent(covered, total)`;
for `b = \x7bbr1: [1,0,2]\x7d` it returns `total = 3`, `covered = 2`,
`pct = 66.67`. -/
theorem computeBranchTotals_spec :
    (∀ fc : FileCoverage,
      (computeBranchTotals fc).total = (fc.b.map (fun p => p.2.length)).sum ∧
      (computeBranchTotals fc).covered =
        (fc.b.map (fun p => (p.2.filter (fun num => num > 0)).length)).sum ∧
      (computeBranchTotals fc).pct =
        Pct.num (percent (computeBranchTotals fc).covered
          (computeBranchTotals fc).total)) ∧
    computeBranchTotals
      { statementMap := [], s := [], fnMap := [], f := [],
        b := [("br1", [1, 0, 2])], l := none } =
      { total := 3, covered := 2, pct := Pct.num 66.67 } := by
  constructor
  · intro fc
    have h := foldl_branch_counts fc.b 0 0
    simp only [computeBranchTotals, h, Nat.zero_add]
    exact ⟨trivial, trivial, trivial⟩
  · norm_num [computeBranchTotals, percent]

theorem mergeFileCoverage_l_eq (a b : FileCoverage) :
    (mergeFileCoverage a b).l = none := rfl

theorem mergeFileCoverage_s_eq (a b : FileCoverage) :
    (mergeFileCoverage a b).s =
      b.s.foldl (fun acc (p : String × Nat) => bumpKey acc p.1 p.2) a.s := rfl

theorem mergeFileCoverage_f_eq (a b : FileCoverage) :
    (mergeFileCoverage a b).f =
      b.f.foldl (fun acc (p : String × Nat) => bumpKey acc p.1 p.2) a.f := rfl

theorem mergeFileCoverage_b_eq (a b : FileCoverage) :
    (mergeFileCoverage a b).b =
      b.b.foldl (fun acc (p : String × List Nat) => bumpArr acc p.1 p.2) a.b := rfl

theorem mergeCounts_lookup_sum {x y : List (String × Nat)} {k : String}
    {va vb : Nat} (hny : (keysOf y).Nodup)
    (ha : x.lookup k = some va) (hb : y.lookup k = some vb) :
    ((y.foldl (fun acc (p : String × Nat) => bumpKey acc p.1 p.2) x).lookup k) =
      some (va + vb) := by
  rw [foldl_bumpKey_lookup, ha]
  simp [keySum_of_lookup_nodup hny hb]

theorem mergeCounts_lookup_comm (x y : List (String × Nat)) (k : String)
    (hk1 : ∀ j ∈ keysOf x, ((y.lookup j)).isSome)
    (hk2 : ∀ j ∈ keysOf y, ((x.lookup j)).isSome)
    (hnx : (keysOf x).Nodup) (hny : (keysOf y).Nodup) :
    ((y.foldl (fun acc (p : String × Nat) => bumpKey acc p.1 p.2) x).lookup k) =
      ((x.foldl (fun acc (p : String × Nat) => bumpKey acc p.1 p.2) y).lookup k) := by
  rcases hx : x.lookup k with _ | va
  · rcases hy : y.lookup k with _ | vb
    · have hnmx : k ∉ keysOf x := (lookup_eq_none_iff _ _).mp hx
      have hnmy : k ∉ keysOf y := (lookup_eq_none_iff _ _).mp hy
      rw [foldl_bumpKey_lookup, foldl_bumpKey_lookup, hx, hy]
      simp [hnmx, hnmy]
    · exact absurd (hk2 k (mem_keysOf_of_lookup hy)) (by simp [hx])
  · rcases hy : y.lookup k with _ | vb
    · exact absurd (hk1 k (mem_keysOf_of_lookup hx)) (by simp [hy])
    · rw [mergeCounts_lookup_sum hny hx hy, mergeCounts_lookup_sum hnx hy hx,
        Nat.add_comm]

theorem mergeArrays_lookup_comm (x y : List (String × List Nat)) (k : String)
    (hk1 : ∀ j ∈ keysOf x, ((y.lookup j)).isSome)
    (hk2 : ∀ j ∈ keysOf y, ((x.lookup j)).isSome)
    (hlen : ∀ p ∈ x, ∀ q ∈ y, p.1 = q.1 → p.2.length = q.2.length)
    (hnx : (keysOf x).Nodup) (hny : (keysOf y).Nodup) :
    ((y.foldl (fun acc (p : String × List Nat) => bumpArr acc p.1 p.2) x).lookup k) =
      ((x.foldl (fun acc (p : String × List Nat) => bumpArr acc p.1 p.2) y).lookup k) := by
  rcases hx : x.lookup k with _ | arrA
  · rcases hy : y.lookup k with _ | arrB
    · rw [foldl_bumpArr_not_mem _ ((lookup_eq_none_iff _ _).mp hy),
        foldl_bumpArr_not_mem _ ((lookup_eq_none_iff _ _).mp hx), hx, hy]
    · exact absurd (hk2 k (mem_keysOf_of_lookup hy)) (by simp [hx])
  · rcases hy : y.lookup k with _ | arrB
    · exact absurd (hk1 k (mem_keysOf_of_lookup hx)) (by simp [hy])
    · have hl : arrA.length = arrB.length :=
        hlen _ (mem_of_lookup_eq_some hx) _ (mem_of_lookup_eq_some hy) rfl
      rw [foldl_bumpArr_lookup _ hny hy, foldl_bumpArr_lookup _ hnx hx, hx, hy]
      simp [addArrays_comm hl]

/-- C3: for two records for the same file (matching key sets in `s`, `f`,
`b` and equal branch-arm lengths), `mergeFileCoverage` returns the key-wise
(and, for branches, index-wise) sum of the counters, has no `l` field, and
its counters agree with those of the merge in the opposite order. -/
theorem mergeFileCoverage_counter_sums (a b : FileCoverage)
    (hsk1 : ∀ k ∈ keysOf a.s, ((b.s.lookup k)).isSome)
    (hsk2 : ∀ k ∈ keysOf b.s, ((a.s.lookup k)).isSome)
    (hfk1 : ∀ k ∈ keysOf a.f, ((b.f.lookup k)).isSome)
    (hfk2 : ∀ k ∈ keysOf b.f, ((a.f.lookup k)).isSome)
    (hbk1 : ∀ k ∈ keysOf a.b, ((b.b.lookup k)).isSome)
    (hbk2 : ∀ k ∈ keysOf b.b, ((a.b.lookup k)).isSome)
    (hlen : ∀ p ∈ a.b, ∀ q ∈ b.b, p.1 = q.1 → p.2.length = q.2.length)
    (hnas : (keysOf a.s).Nodup) (hnbs : (keysOf b.s).Nodup)
    (hnaf : (keysOf a.f).Nodup) (hnbf : (keysOf b.f).Nodup)
    (hnab : (keysOf a.b).Nodup) (hnbb : (keysOf b.b).Nodup) :
    (mergeFileCoverage a b).l = none ∧
    (∀ k va vb, a.s.lookup k = some va → b.s.lookup k = some vb →
      (mergeFileCoverage a b).s.lookup k = some (va + vb)) ∧
    (∀ k va vb, a.f.lookup k = some va → b.f.lookup k = some vb →
      (mergeFileCoverage a b).f.lookup k = some (va + vb)) ∧
    (∀ k arrA arrB, a.b.lookup k = some arrA → b.b.lookup k = some arrB →
      (mergeFileCoverage a b).b.lookup k =
        some (List.zipWith (fun n1 n2 => n1 + n2) arrA arrB)) ∧
    (∀ k, (mergeFileCoverage a b).s.lookup k = (mergeFileCoverage b a).s.lookup k) ∧
    (∀ k, (mergeFileCoverage a b).f.lookup k = (mergeFileCoverage b a).f.lookup k) ∧
    (∀ k, (mergeFileCoverage a b).b.lookup k = (mergeFileCoverage b a).b.lookup k) := by
  refine ⟨rfl, ?_, ?_, ?_, ?_, ?_, ?_⟩
  · intro k va vb ha hb
    rw [mergeFileCoverage_s_eq]
    exact mergeCounts_lookup_sum hnbs ha hb
  · intro k va vb ha hb
    rw [mergeFileCoverage_f_eq]
    exact mergeCounts_lookup_sum hnbf ha hb
  · intro k arrA arrB ha hb
    have hl : arrA.length = arrB.length :=
      hlen _ (mem_of_lookup_eq_some ha) _ (mem_of_lookup_eq_some hb) rfl
    rw [mergeFileCoverage_b_eq, foldl_bumpArr_lookup _ hnbb hb, ha]
    simp [addArrays_eq_zipWith hl]
  · intro k
    rw [mergeFileCoverage_s_eq, mergeFileCoverage_s_eq]
    exact mergeCounts_lookup_comm a.s b.s k hsk1 hsk2 hnas hnbs
  · intro k
    rw [mergeFileCoverage_f_eq, mergeFileCoverage_f_eq]
    exact mergeCounts_lookup_comm a.f b.f k hfk1 hfk2 hnaf hnbf
  · intro k
    rw [mergeFileCoverage_b_eq, mergeFileCoverage_b_eq]
    exact mergeArrays_lookup_comm a.b b.b k hbk1 hbk2 hlen hnab hnbb

/-- The first record of the concrete merge example of the specification. -/
def mergeExampleA : FileCoverage :=
  { statementMap := [("s1", { start := { line := 1 } }),
                     ("s2", { start := { line := 2 } })],
    s := [("s1", 1), ("s2", 0)], fnMap := [], f := [], b := [], l := none }

/-- The second record of the concrete merge example of the specification. -/
def mergeExampleB : FileCoverage :=
  { statementMap := [("s1", { start := { line := 1 } }),
                     ("s2", { start := { line := 2 } })],
    s := [("s1", 2), ("s2", 3)], fnMap := [], f := [], b := [], l := none }

/-- C3 witness: the hypotheses hold for the records of the example
`a = \x7bs:\x7bs1:1,s2:0\x7d\x7d`, `b = \x7bs:\x7bs1:2,s2:3\x7d\x7d`, and the merged `s` is
`\x7bs1:3, s2:3\x7d` with no `l` field. -/
theorem mergeFileCoverage_counter_sums_witness :
    ((∀ k ∈ keysOf mergeExampleA.s, ((mergeExampleB.s.lookup k)).isSome) ∧
     (∀ k ∈ keysOf mergeExampleB.s, ((mergeExampleA.s.lookup k)).isSome) ∧
     (keysOf mergeExampleA.s).Nodup ∧ (keysOf mergeExampleB.s).Nodup) ∧
    (mergeFileCoverage mergeExampleA mergeExampleB).l = none ∧
    (mergeFileCoverage mergeExampleA mergeExampleB).s.lookup "s1" = some 3 ∧
    (mergeFileCoverage mergeExampleA mergeExampleB).s.lookup "s2" = some 3 := by
  have h := mergeFileCoverage_counter_sums mergeExampleA mergeExampleB
    (by decide) (by decide) (by decide) (by decide) (by decide) (by decide)
    (by decide) (by decide) (by decide) (by decide) (by decide) (by decide)
    (by decide)
  exact ⟨⟨by decide, by decide, by decide, by decide⟩, h.1,
    h.2.1 "s1" 1 2 (by decide) (by decide),
    h.2.1 "s2" 0 3 (by decide) (by decide)⟩

theorem mem_countsOn_iff (sm : List (String × Location))
    (s : List (String × Nat)) (line c : Nat) :
    c ∈ countsOn sm s line ↔
      ∃ p ∈ s, startLineOf sm p.1 = line ∧ p.2 = c := by
  simp only [countsOn, List.mem_map, List.mem_filter, beq_iff_eq]
  constructor
  · rintro ⟨p, ⟨hp, hline⟩, hc⟩
    exact ⟨p, hp, hline, hc⟩
  · rintro ⟨p, hp, hline, hc⟩
    exact ⟨p, ⟨hp, hline⟩, hc⟩

theorem countsOn_eq_nil_iff (sm : List (String × Location))
    (s : List (String × Nat)) (line : Nat) :
    countsOn sm s line = [] ↔ ∀ p ∈ s, startLineOf sm p.1 ≠ line := by
  constructor
  · intro h p hp hline
    have : p.2 ∈ countsOn sm s line :=
      (mem_countsOn_iff sm s line p.2).mpr ⟨p, hp, hline, rfl⟩
    rw [h] at this
    simp at this
  · intro h
    rcases hc : countsOn sm s line with _ | ⟨c, cs⟩
    · rfl
    · exfalso
      have : c ∈ countsOn sm s line := by
        rw [hc]
        exact List.mem_cons_self _ _
      obtain ⟨p, hp, hline, _⟩ := (mem_countsOn_iff sm s line c).mp this
      exact h p hp hline

/-- C4: on a record without an `l` field, `addDerivedInfoForFile` produces
an `l` map whose keys are exactly the start lines of the statements of
`statementMap`, mapping each such line to the maximum of `s[id]` over the
statement ids whose `statementMap` entry starts on that line. -/
theorem addDerivedInfoForFile_line_max (fc : FileCoverage)
    (hl : fc.l = none)
    (hk1 : ∀ k ∈ keysOf fc.s, ((fc.statementMap.lookup k)).isSome)
    (hk2 : ∀ k ∈ keysOf fc.statementMap, ((fc.s.lookup k)).isSome)
    (hns : (keysOf fc.s).Nodup) (hnm : (keysOf fc.statementMap).Nodup) :
    ∃ lm, (addDerivedInfoForFile fc).l = some lm ∧
      (∀ line, ((lm.lookup line)).isSome ↔
        ∃ q ∈ fc.statementMap, q.2.start.line = line) ∧
      (∀ line m, lm.lookup line = some m →
        (∃ q ∈ fc.statementMap, q.2.start.line = line ∧
          fc.s.lookup q.1 = some m) ∧
        (∀ q ∈ fc.statementMap, q.2.start.line = line →
          ∀ c, fc.s.lookup q.1 = some c → c ≤ m)) := by
  refine ⟨buildLineMap fc.statementMap fc.s, by simp [addDerivedInfoForFile, hl],
    ?_, ?_⟩
  · intro line
    rw [buildLineMap_lookup]
    constructor
    · intro hsome
      have hne : countsOn fc.statementMap fc.s line ≠ [] := by
        intro hnil
        rw [hnil] at hsome
        simp [listMax] at hsome
      rcases hc : countsOn fc.statementMap fc.s line with _ | ⟨c, cs⟩
      · exact absurd hc hne
      · have hcmem : c ∈ countsOn fc.statementMap fc.s line := by
          rw [hc]
          exact List.mem_cons_self _ _
        obtain ⟨p, hp, hline, _⟩ := (mem_countsOn_iff _ _ _ _).mp hcmem
        have hpk : p.1 ∈ keysOf fc.s := List.mem_map.mpr ⟨p, hp, rfl⟩
        obtain ⟨loc, hloc⟩ := Option.isSome_iff_exists.mp (hk1 p.1 hpk)
        refine ⟨(p.1, loc), mem_of_lookup_eq_some hloc, ?_⟩
        have : startLineOf fc.statementMap p.1 = loc.start.line := by
          simp [startLineOf, hloc]
        rw [← hline, this]
    · rintro ⟨q, hq, hline⟩
      have hqk : q.1 ∈ keysOf fc.statementMap := List.mem_map.mpr ⟨q, hq, rfl⟩
      obtain ⟨c, hcs⟩ := Option.isSome_iff_exists.mp (hk2 q.1 hqk)
      have hqlook : fc.statementMap.lookup q.1 = some q.2 :=
        lookup_eq_some_of_mem_nodup hnm hq
      have hstart : startLineOf fc.statementMap q.1 = line := by
        simp [startLineOf, hqlook, hline]
      have hcmem : c ∈ countsOn fc.statementMap fc.s line :=
        (mem_countsOn_iff _ _ _ _).mpr
          ⟨(q.1, c), mem_of_lookup_eq_some hcs, hstart, rfl⟩
      rcases hmx : listMax (countsOn fc.statementMap fc.s line) with _ | m
      · rw [listMax_eq_none_iff] at hmx
        rw [hmx] at hcmem
        simp at hcmem
      · simp
  · intro line m hm
    rw [buildLineMap_lookup] at hm
    constructor
    · obtain ⟨p, hp, hline, hpm⟩ :=
        (mem_countsOn_iff _ _ _ _).mp (mem_of_listMax hm)
      have hpk : p.1 ∈ keysOf fc.s := List.mem_map.mpr ⟨p, hp, rfl⟩
      obtain ⟨loc, hloc⟩ := Option.isSome_iff_exists.mp (hk1 p.1 hpk)
      refine ⟨(p.1, loc), mem_of_lookup_eq_some hloc, ?_, ?_⟩
      · have : startLineOf fc.statementMap p.1 = loc.start.line := by
          simp [startLineOf, hloc]
        rw [← hline, this]
      · have : fc.s.lookup p.1 = some p.2 := lookup_eq_some_of_mem_nodup hns hp
        rw [this, hpm]
    · intro q hq hline c hcs
      have hqlook : fc.statementMap.lookup q.1 = some q.2 :=
        lookup_eq_some_of_mem_nodup hnm hq
      have hstart : startLineOf fc.statementMap q.1 = line := by
        simp [startLineOf, hqlook, hline]
      have hcmem : c ∈ countsOn fc.statementMap fc.s line :=
        (mem_countsOn_iff _ _ _ _).mpr
          ⟨(q.1, c), mem_of_lookup_eq_some hcs, hstart, rfl⟩
      exact le_listMax hcmem hm

/-- C4 witness: the hypotheses and the derived-line characterisation at a
record with two statements on line 1 (counts 2 and 7) and one on line 4
(count 0). -/
theorem addDerivedInfoForFile_line_max_witness :
    (({ statementMap := [("1", { start := { line := 1 } }),
                         ("2", { start := { line := 1 } }),
                         ("3", { start := { line := 4 } })],
        s := [("1", 2), ("2", 7), ("3", 0)],
        fnMap := [], f := [], b := [], l := none } : FileCoverage).l = none) ∧
    (∃ lm, (addDerivedInfoForFile
      { statementMap := [("1", { start := { line := 1 } }),
                         ("2", { start := { line := 1 } }),
                         ("3", { start := { line := 4 } })],
        s := [("1", 2), ("2", 7), ("3", 0)],
        fnMap := [], f := [], b := [], l := none }).l = some lm ∧
      (∀ line, ((lm.lookup line)).isSome ↔
        ∃ q ∈ ({ statementMap := [("1", { start := { line := 1 } }),
                                  ("2", { start := { line := 1 } }),
                                  ("3", { start := { line := 4 } })],
                 s := [("1", 2), ("2", 7), ("3", 0)],
                 fnMap := [], f := [], b := [],
                 l := none } : FileCoverage).statementMap,
          q.2.start.line = line) ∧
      (∀ line m, lm.lookup line = some m →
        (∃ q ∈ ({ statementMap := [("1", { start := { line := 1 } }),
                                   ("2", { start := { line := 1 } }),
                                   ("3", { start := { line := 4 } })],
                  s := [("1", 2), ("2", 7), ("3", 0)],
                  fnMap := [], f := [], b := [],
                  l := none } : FileCoverage).statementMap,
          q.2.start.line = line ∧
          ({ statementMap := [("1", { start := { line := 1 } }),
                              ("2", { start := { line := 1 } }),
                              ("3", { start := { line := 4 } })],
             s := [("1", 2), ("2", 7), ("3", 0)],
             fnMap := [], f := [], b := [],
             l := none } : FileCoverage).s.lookup q.1 = some m) ∧
        (∀ q ∈ ({ statementMap := [("1", { start := { line := 1 } }),
                                   ("2", { start := { line := 1 } }),
                                   ("3", { start := { line := 4 } })],
                  s := [("1", 2), ("2", 7), ("3", 0)],
                  fnMap := [], f := [], b := [],
                  l := none } : FileCoverage).statementMap,
          q.2.start.line = line →
          ∀ c, ({ statementMap := [("1", { start := { line := 1 } }),
                                   ("2", { start := { line := 1 } }),
                                   ("3", { start := { line := 4 } })],
                  s := [("1", 2), ("2", 7), ("3", 0)],
                  fnMap := [], f := [], b := [],
                  l := none } : FileCoverage).s.lookup q.1 = some c →
            c ≤ m))) :=
  ⟨rfl,
   addDerivedInfoForFile_line_max _ rfl (by decide) (by decide) (by decide)
     (by decide)⟩

/-- C9: `mergeFileCoverage` mutates neither of its arguments: in the
state-passing embedding (the deep copy of `first` means every write of the
source targets the copy), the post-states of both arguments equal the
records the function was called with, field for field. -/
theorem mergeFileCoverage_no_mutation :
    ∀ a b : FileCoverage,
      (mergeFileCoverageState a b).1 = a ∧
      (mergeFileCoverageState a b).2.1 = b :=
  fun _ _ => ⟨rfl, rfl⟩

/-- C10: `summarizeFileCoverage` mutates its argument: on a record without
an `l` field the post-state of the argument carries the derived line map in
`l`, and every other field is unchanged. -/
theorem summarizeFileCoverage_mutates_only_l :
    ∀ fc : FileCoverage, fc.l = none →
      (summarizeFileCoverageState fc).1.l =
        some (buildLineMap fc.statementMap fc.s) ∧
      (summarizeFileCoverageState fc).1.statementMap = fc.statementMap ∧
      (summarizeFileCoverageState fc).1.s = fc.s ∧
      (summarizeFileCoverageState fc).1.fnMap = fc.fnMap ∧
      (summarizeFileCoverageState fc).1.f = fc.f ∧
      (summarizeFileCoverageState fc).1.b = fc.b := by
  intro fc h
  simp [summarizeFileCoverageState, addDerivedInfoForFile, h]

/-- C10 witness: the mutation effect at a concrete record without `l`. -/
theorem summarizeFileCoverage_mutates_only_l_witness :
    (({ statementMap := [("1", { start := { line := 3 } })], s := [("1", 5)],
        fnMap := [], f := [], b := [], l := none } : FileCoverage).l = none) ∧
    (summarizeFileCoverageState
      { statementMap := [("1", { start := { line := 3 } })], s := [("1", 5)],
        fnMap := [], f := [], b := [], l := none }).1.l =
      some (buildLineMap [("1", { start := { line := 3 } })] [("1", 5)]) :=
  ⟨rfl,
   (summarizeFileCoverage_mutates_only_l
     { statementMap := [("1", { start := { line := 3 } })], s := [("1", 5)],
       fnMap := [], f := [], b := [], l := none } rfl).1⟩

/-- A summary whose `pct` fields agree with `percent` of its own counters
(the shape every summary produced by the aggregators has). -/
def consistentSummary (s : Summary) : Prop :=
  s.lines.pct = Pct.num (percent s.lines.covered s.lines.total) ∧
  s.statements.pct = Pct.num (percent s.statements.covered s.statements.total) ∧
  s.functions.pct = Pct.num (percent s.functions.covered s.functions.total) ∧
  s.branches.pct = Pct.num (percent s.branches.covered s.branches.total)

instance decConsistentSummary (s : Summary) :
    Decidable (consistentSummary s) := by
  unfold consistentSummary
  infer_instance

/-- C7 (counterexample): the blank summary is not an identity for
`mergeSummaryObjects` on pct fields: merging the blank summary with a blank
summary does not reproduce it (`pct` becomes `100.00`, not `'Unknown'`),
because `pct` is always recomputed from the counters. -/
theorem mergeSummaryObjects_blank_identity_cex :
    mergeSummaryObjects [some blankSummary, some blankSummary] ≠
      blankSummary := by
  decide

/-- C7 (amended): for every summary whose `pct` fields are consistent with
its counters (`pct = percent(covered, total)` in each category — true of
every summary the aggregators produce, but not of the blank summary
itself), merging with a blank summary in either order reproduces the
summary exactly, and refolding the result with another blank again
reproduces it. -/
theorem mergeSummaryObjects_blank_identity :
    ∀ s : Summary, consistentSummary s →
      mergeSummaryObjects [some s, some blankSummary] = s ∧
      mergeSummaryObjects [some blankSummary, some s] = s ∧
      mergeSummaryObjects
        [some (mergeSummaryObjects [some s, some blankSummary]),
         some blankSummary] = s := by
  intro s hcon
  rcases s with ⟨⟨lt, lc, lp⟩, ⟨st, sc, sp⟩, ⟨ft, fv, fp⟩, ⟨bt, bc, bp⟩⟩
  obtain ⟨h1, h2, h3, h4⟩ := hcon
  simp only at h1 h2 h3 h4
  subst h1 h2 h3 h4
  refine ⟨?_, ?_, ?_⟩ <;>
    simp [mergeSummaryObjects, incrementSummary, blankSummary]

/-- C7 witness: a concrete consistent summary is reproduced by a merge with
the blank summary. -/
theorem mergeSummaryObjects_blank_identity_witness :
    consistentSummary
      { lines := { total := 0, covered := 0, pct := Pct.num 100 },
        statements := { total := 0, covered := 0, pct := Pct.num 100 },
        functions := { total := 0, covered := 0, pct := Pct.num 100 },
        branches := { total := 0, covered := 0, pct := Pct.num 100 } } ∧
    mergeSummaryObjects
      [some { lines := { total := 0, covered := 0, pct := Pct.num 100 },
              statements := { total := 0, covered := 0, pct := Pct.num 100 },
              functions := { total := 0, covered := 0, pct := Pct.num 100 },
              branches := { total := 0, covered := 0, pct := Pct.num 100 } },
       some blankSummary] =
      { lines := { total := 0, covered := 0, pct := Pct.num 100 },
        statements := { total := 0, covered := 0, pct := Pct.num 100 },
        functions := { total := 0, covered := 0, pct := Pct.num 100 },
        branches := { total := 0, covered := 0, pct := Pct.num 100 } } :=
  ⟨by decide,
   (mergeSummaryObjects_blank_identity
     { lines := { total := 0, covered := 0, pct := Pct.num 100 },
       statements := { total := 0, covered := 0, pct := Pct.num 100 },
       functions := { total := 0, covered := 0, pct := Pct.num 100 },
       branches := { total := 0, covered := 0, pct := Pct.num 100 } }
     (by decide)).1⟩

theorem setKey_of_not_mem {α β : Type} [BEq α] [LawfulBEq α]
    {l : List (α × β)} {k : α} (v : β) (h : k ∉ keysOf l) :
    setKey l k v = l ++ [(k, v)] := by
  unfold setKey
  rw [(lookup_eq_none_iff l k).mpr h]

theorem keysOf_append {α β : Type} (l l' : List (α × β)) :
    keysOf (l ++ l') = keysOf l ++ keysOf l' := by
  simp [keysOf]

theorem foldl_yuiLineStep (lm : List (Nat × Nat)) (o : YUIFileCoverage)
    (hnd : (keysOf lm).Nodup)
    (hdisj : ∀ k ∈ keysOf lm, k ∉ keysOf o.lines) :
    lm.foldl yuiLineStep o =
      { o with
        lines := o.lines ++ lm,
        coveredLines := o.coveredLines + lm.length,
        calledLines :=
          o.calledLines + (lm.filter (fun p => p.2 > 0)).length } := by
  induction lm generalizing o with
  | nil => simp
  | cons p t ih =>
    have hp1 : p.1 ∉ keysOf o.lines := hdisj p.1 (by simp [keysOf])
    simp only [keysOf, List.map_cons, List.nodup_cons] at hnd
    have hnd' : (keysOf t).Nodup := hnd.2
    have hdisj' : ∀ k ∈ keysOf t, k ∉ keysOf (yuiLineStep o p).lines := by
      intro k hk
      have hk1 : k ≠ p.1 := by
        intro he
        exact hnd.1 (by simpa [keysOf, he] using hk)
      have hk2 : k ∉ keysOf o.lines := by
        apply hdisj k
        simp only [keysOf, List.map_cons, List.mem_cons]
        exact Or.inr hk
      have hsk : (yuiLineStep o p).lines = o.lines ++ [(p.1, p.2)] := by
        simp [yuiLineStep, setKey_of_not_mem p.2 hp1]
      rw [hsk, keysOf_append]
      intro hc
      rcases List.mem_append.mp hc with hc | hc
      · exact hk2 hc
      · exact hk1 (by simpa [keysOf] using hc)
    rw [List.foldl_cons, ih _ hnd' hdisj']
    simp only [yuiLineStep, setKey_of_not_mem p.2 hp1]
    rw [List.append_assoc]
    simp only [List.singleton_append, List.length_cons, List.filter_cons]
    by_cases hz : p.2 > 0
    · simp [hz]
      omega
    · simp [hz]
      omega

theorem foldl_yuiFnStep (fnMap : List (String × FnMeta))
    (fs : List (String × Nat)) (o : YUIFileCoverage)
    (hnd : (fs.map (fun p => yuiFnKey fnMap p.1)).Nodup)
    (hdisj : ∀ p ∈ fs, yuiFnKey fnMap p.1 ∉ keysOf o.functions) :
    fs.foldl (yuiFnStep fnMap) o =
      { o with
        functions := o.functions ++
          fs.map (fun p => (yuiFnKey fnMap p.1, p.2)),
        coveredFunctions := o.coveredFunctions + fs.length,
        calledFunctions :=
          o.calledFunctions + (fs.filter (fun p => p.2 > 0)).length } := by
  induction fs generalizing o with
  | nil => simp
  | cons p t ih =>
    have hp1 : yuiFnKey fnMap p.1 ∉ keysOf o.functions :=
      hdisj p (by simp)
    simp only [List.map_cons, List.nodup_cons] at hnd
    have hnd' : (t.map (fun p => yuiFnKey fnMap p.1)).Nodup := hnd.2
    have hdisj' : ∀ q ∈ t, yuiFnKey fnMap q.1 ∉ keysOf (yuiFnStep fnMap o p).functions := by
      intro q hq
      have hk1 : yuiFnKey fnMap q.1 ≠ yuiFnKey fnMap p.1 := by
        intro he
        exact hnd.1 (List.mem_map.mpr ⟨q, hq, he⟩)
      have hk2 : yuiFnKey fnMap q.1 ∉ keysOf o.functions :=
        hdisj q (List.mem_cons_of_mem _ hq)
      have hsk : (yuiFnStep fnMap o p).functions =
          o.functions ++ [(yuiFnKey fnMap p.1, p.2)] := by
        simp [yuiFnStep, setKey_of_not_mem p.2 hp1]
      rw [hsk, keysOf_append]
      intro hc
      rcases List.mem_append.mp hc with hc | hc
      · exact hk2 hc
      · exact hk1 (by simpa [keysOf] using hc)
    rw [List.foldl_cons, ih _ hnd' hdisj']
    simp only [yuiFnStep, setKey_of_not_mem p.2 hp1]
    rw [List.append_assoc]
    simp only [List.singleton_append, List.length_cons, List.filter_cons,
      List.map_cons]
    by_cases hz : p.2 > 0
    · simp [hz]
      omega
    · simp [hz]
      omega

theorem addDerivedInfoForFile_f_eq (fc : FileCoverage) :
    (addDerivedInfoForFile fc).f = fc.f := by
  rcases h : fc.l with _ | m <;> simp [addDerivedInfoForFile, h]

theorem addDerivedInfoForFile_fnMap_eq (fc : FileCoverage) :
    (addDerivedInfoForFile fc).fnMap = fc.fnMap := by
  rcases h : fc.l with _ | m <;> simp [addDerivedInfoForFile, h]

theorem convertFile_eval (fc : FileCoverage) (lm : List (Nat × Nat))
    (hl : fc.l = some lm) (hndl : (keysOf lm).Nodup)
    (hndf : (fc.f.map (fun p => yuiFnKey fc.fnMap p.1)).Nodup) :
    convertFile fc =
      { lines := lm,
        coveredLines := lm.length,
        calledLines := (lm.filter (fun p => p.2 > 0)).length,
        functions := fc.f.map (fun p => (yuiFnKey fc.fnMap p.1, p.2)),
        coveredFunctions := fc.f.length,
        calledFunctions := (fc.f.filter (fun p => p.2 > 0)).length } := by
  unfold convertFile
  rw [hl]
  simp only [Option.getD_some]
  rw [foldl_yuiLineStep lm _ hndl (by simp [keysOf])]
  rw [foldl_yuiFnStep fc.fnMap fc.f _ hndf (by simp [keysOf])]
  simp

/-- C8: for every coverage map, `toYUICoverage` maps each file to an object
whose `lines` copies the derived line map, whose `functions` is keyed by
`name:line` from `fnMap` with the counts of `f`, whose
`coveredLines`/`coveredFunctions` equal the number of entries of `l` and
`f`, and whose `calledLines`/`calledFunctions` count only the entries with
count `> 0`. -/
theorem toYUICoverage_spec (cov : Coverage) (k : String) (fc : FileCoverage)
    (hfc : cov.lookup k = some fc) (lm : List (Nat × Nat))
    (hlm : (addDerivedInfoForFile fc).l = some lm)
    (hndl : (keysOf lm).Nodup)
    (hndf : (fc.f.map (fun p => yuiFnKey fc.fnMap p.1)).Nodup) :
    (toYUICoverage cov).2.lookup k =
      some
        { lines := lm,
          coveredLines := lm.length,
          calledLines := (lm.filter (fun p => p.2 > 0)).length,
          functions := fc.f.map (fun p => (yuiFnKey fc.fnMap p.1, p.2)),
          coveredFunctions := fc.f.length,
          calledFunctions := (fc.f.filter (fun p => p.2 > 0)).length } := by
  have h1 : (toYUICoverage cov).2 =
      (addDerivedInfo cov).map (fun p => (p.1, convertFile p.2)) := rfl
  have h2 : (addDerivedInfo cov).lookup k =
      some (addDerivedInfoForFile fc) := by
    unfold addDerivedInfo
    rw [lookup_map_snd, hfc]
    rfl
  rw [h1, lookup_map_snd, h2]
  have h3 := convertFile_eval (addDerivedInfoForFile fc) lm hlm hndl
    (by rw [addDerivedInfoForFile_f_eq, addDerivedInfoForFile_fnMap_eq]; exact hndf)
  simp only [Option.map_some']
  rw [h3, addDerivedInfoForFile_f_eq, addDerivedInfoForFile_fnMap_eq]

/-- The coverage map of the C8 witness: one file with two statements (on
lines 1 and 2, counts 3 and 0) and one function `foo` on line 2 with count
0. -/
def yuiExampleCov : Coverage :=
  [("file.js",
    { statementMap := [("1", { start := { line := 1 } }),
                       ("2", { start := { line := 2 } })],
      s := [("1", 3), ("2", 0)],
      fnMap := [("1", { name := "foo", line := 2 })],
      f := [("1", 0)],
      b := [], l := none })]

/-- C8 witness: the hypotheses and the converted output at the concrete
one-file coverage map. -/
theorem toYUICoverage_spec_witness :
    ((yuiExampleCov.lookup "file.js").isSome ∧
     (keysOf [(1, 3), (2, 0)]).Nodup) ∧
    (toYUICoverage yuiExampleCov).2.lookup "file.js" =
      some
        { lines := [(1, 3), (2, 0)],
          coveredLines := 2,
          calledLines := 1,
          functions := [("foo:2", 0)],
          coveredFunctions := 1,
          calledFunctions := 0 } := by
  refine ⟨⟨by decide, by decide⟩, ?_⟩
  have h := toYUICoverage_spec yuiExampleCov "file.js"
    { statementMap := [("1", { start := { line := 1 } }),
                       ("2", { start := { line := 2 } })],
      s := [("1", 3), ("2", 0)],
      fnMap := [("1", { name := "foo", line := 2 })],
      f := [("1", 0)],
      b := [], l := none }
    (by decide) [(1, 3), (2, 0)] (by decide) (by decide) (by decide)
  exact h

end ObjectUtils
